import Mathlib

/-!
# TTL key-value cache on a document store (`mongo_model.go`)

A shallow embedding of the expiration logic of the cache: the default
timestamps given to a new record, the expiry check on read with its lazy
delete, and the bulk sweep.

Conventions of the embedding.

* An instant (`time.Time`) is an integer count of nanoseconds since Go's zero
  time; instants are unbounded, so `Add` does not saturate.
* Every `time.Now().UTC()` of the source is an explicit argument of the
  function that takes the reading, one argument per call site.
* Every driver request issued through `m.run` takes an argument
  `fault : Option Error`: `some e` makes the request fail with `e`, `none`
  lets it take its documented effect.
* A driver request that addresses one document by key (`One`, `Remove`) takes
  an argument `pick : Nat`, the driver's choice among several documents stored
  under the key, which the store leaves undefined.
* A method on `*MongoCache` returns the cache state after the call together
  with the method's result.
-/

namespace Cache

/-! ## Time -/

/-- An instant: nanoseconds since the zero time (`time.Time{}`). -/
abbrev Time := Int

namespace Time

/-- Go `Time.IsZero`: the instant is the zero time. -/
def IsZero (t : Time) : Bool := decide (t = 0)

/-- Go `Time.Before`: `t` is strictly earlier than `u`. -/
def Before (t u : Time) : Bool := decide (t < u)

/-- Go `Time.Add`: the instant `d` nanoseconds after `t`. -/
def Add (t : Time) (d : Int) : Time := t + d

end Time

/-- Go `time.Second`, a duration in nanoseconds. -/
def Second : Int := 1000000000

/-- The package variable `defaultExpireDuration = time.Second * 60`. -/
def defaultExpireDuration : Int := Second * 60

/-! ## Records and errors -/

/-- The struct `KeyValue`; `α` is the type of the `interface{}` payload. -/
structure KeyValue (α : Type) where
  ObjectId : String
  Key : String
  Value : α
  CreatedAt : Time
  ExpireAt : Time
deriving DecidableEq

/-- Errors returned by the driver: `mgo.ErrNotFound`, or any other failure
of a request. -/
inductive Error where
  | ErrNotFound
  | backend (msg : String)
deriving DecidableEq

/-! ## The document store -/

/-- Requests sent to the collection through `m.run`. -/
inductive Op (α : Type) where
  | Find (key : String)
  | Insert (doc : KeyValue α)
  | Remove (key : String)
  | RemoveAll (lte : Time)
deriving DecidableEq

/-- Modelled from the spec: the struct `MongoCache` is declared outside this
source file. The embedding keeps of it the documents of the collection
`m.CollectionName`, in insertion order, and the requests issued so far
through `m.run`, oldest first. -/
structure MongoCache (α : Type) where
  docs : List (KeyValue α)
  calls : List (Op α)
deriving DecidableEq

variable {α : Type}

/-- The selector `bson.M{"key": key}`. -/
def matchesKey (key : String) (d : KeyValue α) : Bool := d.Key == key

/-- The selector `bson.M{"expireAt": bson.M{"$lte": now}}`. -/
def expiredAt (now : Time) (d : KeyValue α) : Bool := decide (d.ExpireAt ≤ now)

/-- Modelled from the spec: the choice the store makes among `n` documents
matching a filter, for which no order is defined. The number `pick` selects
the match at that position, in store order; a `pick` past the last match
selects the first one. -/
def pickIndex (pick n : Nat) : Nat := if pick < n then pick else 0

/-- Modelled from the spec: the driver's `Find(selector).One`, whose code is
outside this source file. It yields one of the documents matching the key,
the one chosen by `pick`, and `ErrNotFound` when none matches. -/
def One (fault : Option Error) (pick : Nat) (docs : List (KeyValue α)) (key : String) :
    Except Error (KeyValue α) :=
  match fault with
  | some e => .error e
  | none =>
    let found := docs.filter (matchesKey key)
    match found[pickIndex pick found.length]? with
    | some d => .ok d
    | none => .error Error.ErrNotFound

/-- Modelled from the spec: the driver's `Insert`, whose code is outside this
source file. It adds the document, stored field by field as given. -/
def Insert (fault : Option Error) (docs : List (KeyValue α)) (doc : KeyValue α) :
    List (KeyValue α) × Option Error :=
  match fault with
  | some e => (docs, some e)
  | none => (docs ++ [doc], none)

/-- The list without its `n`-th element (counted from 0) among those that
satisfy `p`; the list itself when it has fewer such elements. -/
def eraseMatch {β : Type} (p : β → Bool) : Nat → List β → List β
  | _, [] => []
  | n, d :: ds =>
    if p d then
      match n with
      | 0 => ds
      | n + 1 => d :: eraseMatch p n ds
    else d :: eraseMatch p n ds

/-- Modelled from the spec: the driver's `Remove`, whose code is outside this
source file. It removes one of the documents matching the key, the one chosen
by `pick`, and fails with `ErrNotFound` when none matches. -/
def Remove (fault : Option Error) (pick : Nat) (docs : List (KeyValue α)) (key : String) :
    List (KeyValue α) × Option Error :=
  match fault with
  | some e => (docs, some e)
  | none =>
    let found := docs.filter (matchesKey key)
    if found.isEmpty then (docs, some Error.ErrNotFound)
    else (eraseMatch (matchesKey key) (pickIndex pick found.length) docs, none)

/-- Modelled from the spec: the driver's `RemoveAll`, whose code is outside
this source file. It removes every document whose `expireAt` is at or before
the bound. -/
def RemoveAll (fault : Option Error) (docs : List (KeyValue α)) (lte : Time) :
    List (KeyValue α) × Option Error :=
  match fault with
  | some e => (docs, some e)
  | none => (docs.filter (fun d => !expiredAt lte d), none)

/-- The request is recorded as issued (`m.run`). -/
def MongoCache.issue (m : MongoCache α) (op : Op α) : MongoCache α :=
  { m with calls := m.calls ++ [op] }

/-! ## The operations of `mongo_model.go` -/

/-- Method `getKey`: fetch the record stored under `key`. -/
def getKey (fault : Option Error) (pick : Nat) (m : MongoCache α) (key : String) :
    MongoCache α × Except Error (KeyValue α) :=
  let m1 := m.issue (Op.Find key)
  match One fault pick m1.docs key with
  | .error err => (m1, .error err)
  | .ok keyValue => (m1, .ok keyValue)

/-- Method `deleteKey`: remove one record stored under `key`. -/
def deleteKey (fault : Option Error) (pick : Nat) (m : MongoCache α) (key : String) :
    MongoCache α × Option Error :=
  let m1 := m.issue (Op.Remove key)
  let r := Remove fault pick m1.docs key
  ({ m1 with docs := r.1 }, r.2)

/-- Method `deleteExpiredKeys`: remove every record with `expireAt <= now`, where
`now` is the clock reading taken for the selector. -/
def deleteExpiredKeys (fault : Option Error) (now : Time) (m : MongoCache α) :
    MongoCache α × Option Error :=
  let m1 := m.issue (Op.RemoveAll now)
  let r := RemoveAll fault m1.docs now
  ({ m1 with docs := r.1 }, r.2)

/-- Method `createKeyValue`: stamp `CreatedAt` with the clock reading `now` and
insert the record. -/
def createKeyValue (fault : Option Error) (now : Time) (m : MongoCache α)
    (k : KeyValue α) : MongoCache α × Option Error :=
  let k1 := { k with CreatedAt := now }
  let m1 := m.issue (Op.Insert k1)
  let r := Insert fault m1.docs k1
  ({ m1 with docs := r.1 }, r.2)

/-- Function `setDefaultDataTimes`: `now1` is the clock reading taken when `CreatedAt`
is zero, `now2` the one taken for the comparison with `ExpireAt`. -/
def setDefaultDataTimes (now1 now2 : Time) (k : KeyValue α) : KeyValue α :=
  let k1 := if Time.IsZero k.CreatedAt then { k with CreatedAt := now1 } else k
  if Time.Before k1.ExpireAt now2 || Time.IsZero k1.ExpireAt then
    { k1 with ExpireAt := Time.Add k1.CreatedAt defaultExpireDuration }
  else k1

/-- Method `createKeyValueWithExpiration`: `now1`, `now2` are the readings of
`setDefaultDataTimes`, `now3` the later one of `createKeyValue`. -/
def createKeyValueWithExpiration (fault : Option Error) (now1 now2 now3 : Time)
    (m : MongoCache α) (k : KeyValue α) : MongoCache α × Option Error :=
  createKeyValue fault now3 m (setDefaultDataTimes now1 now2 k)

/-- Method `getKeyWithExpireCheck`: `findFault`, `findPick` and `delFault`,
`delPick` are the outcomes of the lookup and of the delete, `now` the clock
reading of the expiry check. -/
def getKeyWithExpireCheck (findFault delFault : Option Error) (findPick delPick : Nat)
    (now : Time) (m : MongoCache α) (k : String) :
    MongoCache α × Except Error (KeyValue α) :=
  match getKey findFault findPick m k with
  | (m1, .error err) => (m1, .error err)
  | (m1, .ok key) =>
    if Time.Before key.ExpireAt now then
      match deleteKey delFault delPick m1 k with
      | (m2, some err) => (m2, .error err)
      | (m2, none) => (m2, .error Error.ErrNotFound)
    else (m1, .ok key)

/-! ## Lemmas on the operations -/

theorem pickIndex_lt (pick : Nat) {n : Nat} (h : 0 < n) : pickIndex pick n < n := by
  unfold pickIndex
  split <;> omega

theorem getKey_eq (fault : Option Error) (pick : Nat) (m : MongoCache α) (key : String) :
    getKey fault pick m key = (m.issue (Op.Find key), One fault pick m.docs key) := by
  have hdocs : (m.issue (Op.Find key)).docs = m.docs := rfl
  simp only [getKey, hdocs]
  cases One fault pick m.docs key <;> rfl

theorem One_ok_mem {docs : List (KeyValue α)} {key : String} {fault : Option Error}
    {pick : Nat} {r : KeyValue α} (h : One fault pick docs key = .ok r) :
    fault = none ∧ r.Key = key ∧ r ∈ docs := by
  unfold One at h
  cases fault with
  | some e => simp at h
  | none =>
    simp only at h
    cases hf : (docs.filter (matchesKey key))[pickIndex pick
        (docs.filter (matchesKey key)).length]? with
    | none => rw [hf] at h; simp at h
    | some d =>
      rw [hf] at h
      have hd : d = r := by injection h
      subst hd
      have hmem := List.getElem?_mem hf
      rw [List.mem_filter] at hmem
      refine ⟨rfl, ?_, hmem.1⟩
      simpa [matchesKey] using hmem.2

theorem filter_ne_nil_of_mem {docs : List (KeyValue α)} {key : String} {r : KeyValue α}
    (hmem : r ∈ docs) (hkey : r.Key = key) : docs.filter (matchesKey key) ≠ [] := by
  intro h
  have : r ∈ docs.filter (matchesKey key) := by
    rw [List.mem_filter]
    exact ⟨hmem, by simp [matchesKey, hkey]⟩
  rw [h] at this
  cases this

theorem eraseMatch_split {β : Type} (p : β → Bool) :
    ∀ (l : List β) (n : Nat), n < (l.filter p).length →
      ∃ pre d post, l = pre ++ d :: post ∧ p d = true ∧ eraseMatch p n l = pre ++ post := by
  intro l
  induction l with
  | nil => intro n h; simp at h
  | cons x xs ih =>
    intro n h
    by_cases hx : p x = true
    · cases n with
      | zero => exact ⟨[], x, xs, rfl, hx, by simp [eraseMatch, hx]⟩
      | succ n =>
        have h2 : n < (xs.filter p).length := by
          simp [List.filter_cons, hx] at h
          omega
        obtain ⟨pre, d, post, hl, hd, he⟩ := ih n h2
        refine ⟨x :: pre, d, post, by rw [hl]; rfl, hd, ?_⟩
        simp [eraseMatch, hx, he]
    · have h2 : n < (xs.filter p).length := by
        simpa [List.filter_cons, hx] using h
      obtain ⟨pre, d, post, hl, hd, he⟩ := ih n h2
      refine ⟨x :: pre, d, post, by rw [hl]; rfl, hd, ?_⟩
      simp [eraseMatch, hx, he]

theorem Remove_ok (pick : Nat) (docs : List (KeyValue α)) (key : String)
    (hne : docs.filter (matchesKey key) ≠ []) :
    (Remove none pick docs key).2 = none ∧
    ∃ pre d post, docs = pre ++ d :: post ∧ d.Key = key ∧
      (Remove none pick docs key).1 = pre ++ post := by
  have hlen : 0 < (docs.filter (matchesKey key)).length := List.length_pos.mpr hne
  have hemp : (docs.filter (matchesKey key)).isEmpty = false := by
    cases hf : docs.filter (matchesKey key) with
    | nil => exact absurd hf hne
    | cons x xs => rfl
  obtain ⟨pre, d, post, hl, hd, he⟩ :=
    eraseMatch_split (matchesKey key) docs _ (pickIndex_lt pick hlen)
  have hR : Remove none pick docs key
      = (eraseMatch (matchesKey key)
          (pickIndex pick (docs.filter (matchesKey key)).length) docs, none) := by
    simp only [Remove, hemp]
    rfl
  rw [hR]
  refine ⟨rfl, pre, d, post, hl, ?_, he⟩
  simpa [matchesKey] using hd

theorem deleteKey_ok (pick : Nat) (m : MongoCache α) (key : String)
    (hne : m.docs.filter (matchesKey key) ≠ []) :
    (deleteKey none pick m key).2 = none ∧
    ∃ pre d post, m.docs = pre ++ d :: post ∧ d.Key = key ∧
      (deleteKey none pick m key).1.docs = pre ++ post :=
  Remove_ok pick m.docs key hne

theorem setDefaultDataTimes_zero (now1 now2 : Time) (oid key : String) (V : α) :
    setDefaultDataTimes now1 now2 (⟨oid, key, V, 0, 0⟩ : KeyValue α) =
      ⟨oid, key, V, now1, now1 + defaultExpireDuration⟩ := by
  simp [setDefaultDataTimes, Time.IsZero, Time.Before, Time.Add]

theorem createKeyValue_ok (now : Time) (m : MongoCache α) (k : KeyValue α) :
    createKeyValue none now m k =
      (⟨m.docs ++ [{ k with CreatedAt := now }],
        m.calls ++ [Op.Insert { k with CreatedAt := now }]⟩, none) := rfl

theorem getKeyWithExpireCheck_lookup_error (findFault delFault : Option Error)
    (findPick delPick : Nat) (now : Time)
    (m : MongoCache α) (k : String) (e : Error)
    (h : One findFault findPick m.docs k = .error e) :
    getKeyWithExpireCheck findFault delFault findPick delPick now m k
      = (m.issue (Op.Find k), .error e) := by
  simp only [getKeyWithExpireCheck, getKey_eq, h]

theorem getKeyWithExpireCheck_live (findFault delFault : Option Error)
    (findPick delPick : Nat) (now : Time)
    (m : MongoCache α) (k : String) (r : KeyValue α)
    (h : One findFault findPick m.docs k = .ok r)
    (hlive : ¬ r.ExpireAt < now) :
    getKeyWithExpireCheck findFault delFault findPick delPick now m k
      = (m.issue (Op.Find k), .ok r) := by
  simp only [getKeyWithExpireCheck, getKey_eq, h]
  simp [Time.Before, hlive]

theorem getKeyWithExpireCheck_expired (findFault delFault : Option Error)
    (findPick delPick : Nat) (now : Time)
    (m : MongoCache α) (k : String) (r : KeyValue α)
    (h : One findFault findPick m.docs k = .ok r)
    (hexp : r.ExpireAt < now) :
    getKeyWithExpireCheck findFault delFault findPick delPick now m k =
      ((deleteKey delFault delPick (m.issue (Op.Find k)) k).1,
        .error (((deleteKey delFault delPick (m.issue (Op.Find k)) k).2).getD
          Error.ErrNotFound)) := by
  simp only [getKeyWithExpireCheck, getKey_eq, h]
  simp only [Time.Before, hexp, decide_True, if_true]
  cases hd : deleteKey delFault delPick (m.issue (Op.Find k)) k with
  | mk m2 res => cases res <;> rfl

theorem filter_after_insert (docs : List (KeyValue α)) (k : String) (d : KeyValue α)
    (hfresh : ∀ x ∈ docs, x.Key ≠ k) (hd : d.Key = k) :
    (docs ++ [d]).filter (matchesKey k) = [d] := by
  have hnone : docs.filter (matchesKey k) = [] := by
    rw [List.filter_eq_nil_iff]
    intro x hx
    simp [matchesKey, hfresh x hx]
  simp [List.filter_append, hnone, List.filter_cons, matchesKey, hd]

theorem One_after_insert (pick : Nat) (docs : List (KeyValue α)) (k : String)
    (d : KeyValue α) (hfresh : ∀ x ∈ docs, x.Key ≠ k) (hd : d.Key = k) :
    One none pick (docs ++ [d]) k = .ok d := by
  have hp : pickIndex pick 1 = 0 := by
    have := pickIndex_lt pick (Nat.zero_lt_one)
    omega
  simp [One, filter_after_insert docs k d hfresh hd, hp]

/-! ## The claims -/

/-- C1. Round trip: into a store holding no record under `k`, insert with
`createKeyValueWithExpiration` a record carrying `Key = k`, `Value = V`, zero
`CreatedAt` and zero `ExpireAt`; the insert returns no error, and a
`getKeyWithExpireCheck k` whose clock reading `now` is less than
`defaultExpireDuration` after the insert (measured from the first clock
reading `now1` of the insert) returns no error and a record with `Key = k` and
`Value = V`. -/
theorem create_then_read_round_trip (m : MongoCache α) (oid k : String) (V : α)
    (now1 now2 now3 now : Time) (delFault : Option Error) (findPick delPick : Nat)
    (hfresh : ∀ d ∈ m.docs, d.Key ≠ k)
    (hnow : now < now1 + defaultExpireDuration) :
    (createKeyValueWithExpiration none now1 now2 now3 m ⟨oid, k, V, 0, 0⟩).2 = none ∧
    ∃ r, (getKeyWithExpireCheck none delFault findPick delPick now
            (createKeyValueWithExpiration none now1 now2 now3 m ⟨oid, k, V, 0, 0⟩).1 k).2
          = .ok r ∧ r.Key = k ∧ r.Value = V := by
  rw [createKeyValueWithExpiration, setDefaultDataTimes_zero, createKeyValue_ok]
  refine ⟨rfl, ⟨oid, k, V, now3, now1 + defaultExpireDuration⟩, ?_, rfl, rfl⟩
  rw [getKeyWithExpireCheck_live none delFault findPick delPick now _ k
    ⟨oid, k, V, now3, now1 + defaultExpireDuration⟩]
  · exact One_after_insert findPick m.docs k _ hfresh rfl
  · exact fun h => lt_asymm hnow h

/-- Witness of C1: the empty store, key "k", value 7, insert at instant 100,
read at instant 200. -/
theorem create_then_read_round_trip_witness :
    (createKeyValueWithExpiration none 100 100 100 (⟨[], []⟩ : MongoCache Nat)
        ⟨"", "k", 7, 0, 0⟩).2 = none ∧
    ∃ r, (getKeyWithExpireCheck none none 0 0 200
            (createKeyValueWithExpiration none 100 100 100 (⟨[], []⟩ : MongoCache Nat)
              ⟨"", "k", 7, 0, 0⟩).1 "k").2
          = .ok r ∧ r.Key = "k" ∧ r.Value = 7 :=
  create_then_read_round_trip ⟨[], []⟩ "" "k" 7 100 100 100 200 none 0 0
    (by intro d hd; cases hd) (by decide)

/-- C2, as stated, fails: the store holds two records under "k", the first
expired at the clock reading and the second live. The lookup yields the
expired one, the delete by key succeeds and the read returns `ErrNotFound`,
but the delete took the live record: the expired record found is still in the
store. -/
theorem expired_read_may_delete_another_record :
    (getKey none 0
        (⟨[⟨"aaaaaaaaaaaa", "k", 1, 0, 49000000⟩, ⟨"bbbbbbbbbbbb", "k", 2, 0, 90000000⟩], []⟩ :
          MongoCache Nat) "k").2 = .ok ⟨"aaaaaaaaaaaa", "k", 1, 0, 49000000⟩ ∧
    (⟨"aaaaaaaaaaaa", "k", 1, 0, 49000000⟩ : KeyValue Nat).ExpireAt < (50000000 : Time) ∧
    (deleteKey none 1 (getKey none 0
        (⟨[⟨"aaaaaaaaaaaa", "k", 1, 0, 49000000⟩, ⟨"bbbbbbbbbbbb", "k", 2, 0, 90000000⟩], []⟩ :
          MongoCache Nat) "k").1 "k").2 = none ∧
    (getKeyWithExpireCheck none none 0 1 50000000
        (⟨[⟨"aaaaaaaaaaaa", "k", 1, 0, 49000000⟩, ⟨"bbbbbbbbbbbb", "k", 2, 0, 90000000⟩], []⟩ :
          MongoCache Nat) "k").2 = .error Error.ErrNotFound ∧
    (getKeyWithExpireCheck none none 0 1 50000000
        (⟨[⟨"aaaaaaaaaaaa", "k", 1, 0, 49000000⟩, ⟨"bbbbbbbbbbbb", "k", 2, 0, 90000000⟩], []⟩ :
          MongoCache Nat) "k").1.docs = [⟨"aaaaaaaaaaaa", "k", 1, 0, 49000000⟩] ∧
    (⟨"aaaaaaaaaaaa", "k", 1, 0, 49000000⟩ : KeyValue Nat) ∈
      (getKeyWithExpireCheck none none 0 1 50000000
        (⟨[⟨"aaaaaaaaaaaa", "k", 1, 0, 49000000⟩, ⟨"bbbbbbbbbbbb", "k", 2, 0, 90000000⟩], []⟩ :
          MongoCache Nat) "k").1.docs := by
  refine ⟨rfl, by decide, rfl, rfl, rfl, ?_⟩
  have h : (getKeyWithExpireCheck none none 0 1 50000000
        (⟨[⟨"aaaaaaaaaaaa", "k", 1, 0, 49000000⟩, ⟨"bbbbbbbbbbbb", "k", 2, 0, 90000000⟩], []⟩ :
          MongoCache Nat) "k").1.docs = [⟨"aaaaaaaaaaaa", "k", 1, 0, 49000000⟩] := rfl
  rw [h]
  exact List.mem_singleton.mpr rfl

/-- C2, amended. Lazy deletion on read: when the record `r` found for `k` has
`ExpireAt` strictly before the clock reading `now` and the delete succeeds,
`getKeyWithExpireCheck k` returns `ErrNotFound`; afterwards exactly one
document stored under `k` has been taken out of the store and every other
document is in place, so the records under any other key are unchanged; and
when `r` is the only record stored under `k`, no record under `k` is left, so
the store no longer contains `r`. -/
theorem expired_read_deletes_one_under_key (m : MongoCache α) (k : String) (now : Time)
    (delFault : Option Error) (findPick delPick : Nat) (r : KeyValue α)
    (hfound : (getKey none findPick m k).2 = .ok r)
    (hexp : r.ExpireAt < now)
    (hdel : (deleteKey delFault delPick (getKey none findPick m k).1 k).2 = none) :
    (getKeyWithExpireCheck none delFault findPick delPick now m k).2
      = .error Error.ErrNotFound ∧
    (∃ pre d post, m.docs = pre ++ d :: post ∧ d.Key = k ∧
      (getKeyWithExpireCheck none delFault findPick delPick now m k).1.docs = pre ++ post) ∧
    (getKeyWithExpireCheck none delFault findPick delPick now m k).1.docs.filter
        (fun d => !matchesKey k d)
      = m.docs.filter (fun d => !matchesKey k d) ∧
    ((m.docs.filter (matchesKey k)).length = 1 →
      (∀ d ∈ (getKeyWithExpireCheck none delFault findPick delPick now m k).1.docs, d.Key ≠ k) ∧
      r ∉ (getKeyWithExpireCheck none delFault findPick delPick now m k).1.docs) := by
  rw [getKey_eq] at hfound hdel
  simp only at hfound hdel
  obtain ⟨-, hkey, hmem⟩ := One_ok_mem hfound
  have hne : m.docs.filter (matchesKey k) ≠ [] := filter_ne_nil_of_mem hmem hkey
  rw [getKeyWithExpireCheck_expired none delFault findPick delPick now m k r hfound hexp]
  have hfault : delFault = none := by
    cases delFault with
    | none => rfl
    | some e => simp [deleteKey, Remove] at hdel
  subst hfault
  obtain ⟨-, pre, d, post, hsplit, hd, hdocs⟩ := deleteKey_ok delPick (m.issue (Op.Find k)) k hne
  have hsplit2 : m.docs = pre ++ d :: post := hsplit
  refine ⟨by rw [hdel]; rfl, ⟨pre, d, post, hsplit2, hd, hdocs⟩, ?_, ?_⟩
  · simp only [hdocs]
    rw [hsplit2]
    simp [List.filter_append, List.filter_cons, matchesKey, hd]
  · intro hone
    simp only [hdocs]
    rw [hsplit2] at hone
    have hdm : matchesKey k d = true := by simp [matchesKey, hd]
    simp only [List.filter_append, List.filter_cons, hdm, if_true, List.length_append,
      List.length_cons] at hone
    have hpre : (pre.filter (matchesKey k)).length = 0 := by omega
    have hpost : (post.filter (matchesKey k)).length = 0 := by omega
    have hnokey : ∀ x ∈ pre ++ post, x.Key ≠ k := by
      intro x hx hxk
      have hxm : matchesKey k x = true := by simp [matchesKey, hxk]
      rcases List.mem_append.mp hx with h | h
      · have : x ∈ pre.filter (matchesKey k) := List.mem_filter.mpr ⟨h, hxm⟩
        rw [List.length_eq_zero.mp hpre] at this
        cases this
      · have : x ∈ post.filter (matchesKey k) := List.mem_filter.mpr ⟨h, hxm⟩
        rw [List.length_eq_zero.mp hpost] at this
        cases this
    exact ⟨hnokey, fun h => hnokey r h hkey⟩

/-- Witness of C2, amended: a store with one expired record under "session-1"
between two records under other keys, read at instant 50. -/
theorem expired_read_deletes_one_under_key_witness :
    (getKeyWithExpireCheck none none 0 0 50
        (⟨[⟨"a", "x", 1, 0, 90⟩, ⟨"b", "session-1", 2, 0, 49⟩, ⟨"c", "y", 3, 0, 10⟩], []⟩ :
          MongoCache Nat) "session-1").2 = .error Error.ErrNotFound ∧
    (∃ pre d post,
      [⟨"a", "x", 1, 0, 90⟩, ⟨"b", "session-1", 2, 0, 49⟩, ⟨"c", "y", 3, 0, 10⟩]
        = pre ++ (d : KeyValue Nat) :: post ∧ d.Key = "session-1" ∧
      (getKeyWithExpireCheck none none 0 0 50
        (⟨[⟨"a", "x", 1, 0, 90⟩, ⟨"b", "session-1", 2, 0, 49⟩, ⟨"c", "y", 3, 0, 10⟩], []⟩ :
          MongoCache Nat) "session-1").1.docs = pre ++ post) ∧
    (getKeyWithExpireCheck none none 0 0 50
        (⟨[⟨"a", "x", 1, 0, 90⟩, ⟨"b", "session-1", 2, 0, 49⟩, ⟨"c", "y", 3, 0, 10⟩], []⟩ :
          MongoCache Nat) "session-1").1.docs.filter (fun d => !matchesKey "session-1" d)
      = ([⟨"a", "x", 1, 0, 90⟩, ⟨"b", "session-1", 2, 0, 49⟩, ⟨"c", "y", 3, 0, 10⟩] :
          List (KeyValue Nat)).filter (fun d => !matchesKey "session-1" d) ∧
    ((([⟨"a", "x", 1, 0, 90⟩, ⟨"b", "session-1", 2, 0, 49⟩, ⟨"c", "y", 3, 0, 10⟩] :
          List (KeyValue Nat)).filter (matchesKey "session-1")).length = 1 →
      (∀ d ∈ (getKeyWithExpireCheck none none 0 0 50
        (⟨[⟨"a", "x", 1, 0, 90⟩, ⟨"b", "session-1", 2, 0, 49⟩, ⟨"c", "y", 3, 0, 10⟩], []⟩ :
          MongoCache Nat) "session-1").1.docs, d.Key ≠ "session-1") ∧
      (⟨"b", "session-1", 2, 0, 49⟩ : KeyValue Nat) ∉
        (getKeyWithExpireCheck none none 0 0 50
          (⟨[⟨"a", "x", 1, 0, 90⟩, ⟨"b", "session-1", 2, 0, 49⟩, ⟨"c", "y", 3, 0, 10⟩], []⟩ :
            MongoCache Nat) "session-1").1.docs) :=
  expired_read_deletes_one_under_key
    ⟨[⟨"a", "x", 1, 0, 90⟩, ⟨"b", "session-1", 2, 0, 49⟩, ⟨"c", "y", 3, 0, 10⟩], []⟩
    "session-1" 50 none 0 0 ⟨"b", "session-1", 2, 0, 49⟩ rfl (by decide) rfl

/-- C3. TTL expiry with the default duration: a record with zero `CreatedAt` and
zero `ExpireAt` is inserted by `createKeyValueWithExpiration` into a store
holding no other record under its key. A `getKeyWithExpireCheck` on that key
whose clock reading `now` is later than `defaultExpireDuration` (60 s) after
an instant `t` of the insert (`t` not earlier than the insert's first clock
reading) never returns the record, and returns `ErrNotFound` when its delete
succeeds. -/
theorem read_after_default_duration_misses (m : MongoCache α) (oid k : String) (V : α)
    (now1 now2 now3 t now : Time) (findPick : Nat)
    (hfresh : ∀ d ∈ m.docs, d.Key ≠ k)
    (ht : now1 ≤ t)
    (hlate : t + 60 * Second < now) :
    defaultExpireDuration = 60 * Second ∧
    (∀ delPick, (getKeyWithExpireCheck none none findPick delPick now
        (createKeyValueWithExpiration none now1 now2 now3 m ⟨oid, k, V, 0, 0⟩).1 k).2
      = .error Error.ErrNotFound) ∧
    ∀ delFault delPick r,
      (getKeyWithExpireCheck none delFault findPick delPick now
        (createKeyValueWithExpiration none now1 now2 now3 m ⟨oid, k, V, 0, 0⟩).1 k).2
      ≠ .ok r := by
  have hd : defaultExpireDuration = 60 * Second := by
    simp [defaultExpireDuration, Second]
  rw [createKeyValueWithExpiration, setDefaultDataTimes_zero, createKeyValue_ok]
  have hone := One_after_insert findPick m.docs k
    (⟨oid, k, V, now3, now1 + defaultExpireDuration⟩ : KeyValue α) hfresh rfl
  have hexp : (⟨oid, k, V, now3, now1 + defaultExpireDuration⟩ : KeyValue α).ExpireAt < now := by
    show now1 + defaultExpireDuration < now
    rw [hd]
    linarith
  refine ⟨hd, ?_, ?_⟩
  · intro delPick
    rw [getKeyWithExpireCheck_expired none none findPick delPick now _ k _ hone hexp]
    have hne : (m.docs ++ [(⟨oid, k, V, now3, now1 + defaultExpireDuration⟩ : KeyValue α)]).filter
        (matchesKey k) ≠ [] := by
      rw [filter_after_insert m.docs k _ hfresh rfl]
      simp
    have hok := (deleteKey_ok delPick
      ((⟨m.docs ++ [(⟨oid, k, V, now3, now1 + defaultExpireDuration⟩ : KeyValue α)],
        m.calls ++ [Op.Insert ⟨oid, k, V, now3, now1 + defaultExpireDuration⟩]⟩ :
          MongoCache α).issue (Op.Find k)) k hne).1
    simp only at hok ⊢
    rw [hok]
    rfl
  · intro delFault delPick r
    rw [getKeyWithExpireCheck_expired none delFault findPick delPick now _ k _ hone hexp]
    simp

/-- Witness of C3: insert into the empty store at instant 100, read one
nanosecond after the sixty seconds have passed. -/
theorem read_after_default_duration_misses_witness :
    defaultExpireDuration = 60 * Second ∧
    (∀ delPick, (getKeyWithExpireCheck none none 0 delPick 60000000102
        (createKeyValueWithExpiration none 100 100 101 (⟨[], []⟩ : MongoCache Nat)
          ⟨"", "alpha", 7, 0, 0⟩).1 "alpha").2
      = .error Error.ErrNotFound) ∧
    ∀ delFault delPick r,
      (getKeyWithExpireCheck none delFault 0 delPick 60000000102
        (createKeyValueWithExpiration none 100 100 101 (⟨[], []⟩ : MongoCache Nat)
          ⟨"", "alpha", 7, 0, 0⟩).1 "alpha").2
      ≠ .ok r :=
  read_after_default_duration_misses ⟨[], []⟩ "" "alpha" 7 100 100 101 101 60000000102 0
    (by intro d hd; cases hd) (by decide) (by decide)

/-- C4, as stated, fails: a record supplied with zero `CreatedAt` and zero
`ExpireAt` is inserted while the clock reads 1000000 in `setDefaultDataTimes`
and 2000000 in `createKeyValue`. It is persisted with `CreatedAt` = 2000000
and `ExpireAt` = 1000000 + 60 s, which is not the persisted `CreatedAt` plus
`defaultExpireDuration`. -/
theorem persisted_expiry_differs_from_persisted_createdAt :
    Time.IsZero (⟨"aaaaaaaaaaaa", "k", 7, 0, 0⟩ : KeyValue Nat).CreatedAt = true ∧
    Time.IsZero (⟨"aaaaaaaaaaaa", "k", 7, 0, 0⟩ : KeyValue Nat).ExpireAt = true ∧
    (createKeyValueWithExpiration none 1000000 1000000 2000000 (⟨[], []⟩ : MongoCache Nat)
        ⟨"aaaaaaaaaaaa", "k", 7, 0, 0⟩).1.docs
      = [⟨"aaaaaaaaaaaa", "k", 7, 2000000, 60001000000⟩] ∧
    (⟨"aaaaaaaaaaaa", "k", 7, 2000000, 60001000000⟩ : KeyValue Nat).ExpireAt ≠
      Time.Add (⟨"aaaaaaaaaaaa", "k", 7, 2000000, 60001000000⟩ : KeyValue Nat).CreatedAt
        defaultExpireDuration := by
  refine ⟨rfl, rfl, rfl, ?_⟩
  decide

/-- C4, amended. For a record supplied with zero `CreatedAt` and an `ExpireAt`
that is zero or before the clock reading `now2`, the record persisted by
`createKeyValueWithExpiration` has `ExpireAt = now1 + defaultExpireDuration`,
where `now1` is the reading `setDefaultDataTimes` stamps as `CreatedAt`, and
`CreatedAt = now3`, the reading `createKeyValue` stamps over it afterwards;
`ExpireAt` is the persisted `CreatedAt` plus `defaultExpireDuration` exactly
when the two readings are the same instant. -/
theorem persisted_default_expiry (m : MongoCache α) (k : KeyValue α)
    (now1 now2 now3 : Time)
    (hc : k.CreatedAt = 0)
    (hexp : k.ExpireAt = 0 ∨ k.ExpireAt < now2) :
    ∃ p, (createKeyValueWithExpiration none now1 now2 now3 m k).1.docs = m.docs ++ [p] ∧
      p.ExpireAt = Time.Add now1 defaultExpireDuration ∧
      p.CreatedAt = now3 ∧
      (p.ExpireAt = Time.Add p.CreatedAt defaultExpireDuration ↔ now3 = now1) := by
  have hset : (setDefaultDataTimes now1 now2 k).ExpireAt
      = Time.Add now1 defaultExpireDuration := by
    rcases hexp with h | h <;>
      simp [setDefaultDataTimes, hc, Time.Before, Time.IsZero, h]
  refine ⟨{ setDefaultDataTimes now1 now2 k with CreatedAt := now3 }, ?_, hset, rfl, ?_⟩
  · rw [createKeyValueWithExpiration, createKeyValue_ok]
  · show (setDefaultDataTimes now1 now2 k).ExpireAt = Time.Add now3 defaultExpireDuration
      ↔ now3 = now1
    rw [hset]
    unfold Time.Add
    constructor
    · intro h
      exact (add_right_cancel h).symm
    · intro h
      rw [h]

/-- Witness of C4, amended: a record with zero times inserted while the clock
reads 1000000 in `setDefaultDataTimes` and 2000000 in `createKeyValue`. -/
theorem persisted_default_expiry_witness :
    ∃ p, (createKeyValueWithExpiration none 1000000 1000000 2000000
        (⟨[], []⟩ : MongoCache Nat) ⟨"aaaaaaaaaaaa", "k", 7, 0, 0⟩).1.docs = [] ++ [p] ∧
      p.ExpireAt = Time.Add 1000000 defaultExpireDuration ∧
      p.CreatedAt = 2000000 ∧
      (p.ExpireAt = Time.Add p.CreatedAt defaultExpireDuration ↔
        (2000000 : Time) = 1000000) :=
  persisted_default_expiry ⟨[], []⟩ ⟨"aaaaaaaaaaaa", "k", 7, 0, 0⟩ 1000000 1000000 2000000
    rfl (Or.inl rfl)

/-- C5. A supplied `ExpireAt` that is non-zero and not before the clock reading
`now2` of the check is preserved: `setDefaultDataTimes` returns the record with
that `ExpireAt`, and the record persisted by `createKeyValueWithExpiration`
carries it too. -/
theorem future_expireAt_preserved (m : MongoCache α) (k : KeyValue α)
    (now1 now2 now3 : Time)
    (hnz : k.ExpireAt ≠ 0)
    (hfut : ¬ k.ExpireAt < now2) :
    (setDefaultDataTimes now1 now2 k).ExpireAt = k.ExpireAt ∧
    ∃ p, (createKeyValueWithExpiration none now1 now2 now3 m k).1.docs = m.docs ++ [p] ∧
      p.ExpireAt = k.ExpireAt := by
  have hset : (setDefaultDataTimes now1 now2 k).ExpireAt = k.ExpireAt := by
    by_cases hc : k.CreatedAt = 0 <;>
      simp [setDefaultDataTimes, hc, Time.Before, Time.IsZero, hnz, hfut]
  refine ⟨hset, { setDefaultDataTimes now1 now2 k with CreatedAt := now3 }, ?_, hset⟩
  rw [createKeyValueWithExpiration, createKeyValue_ok]

/-- Witness of C5: a record expiring at instant 500, checked at instant 100. -/
theorem future_expireAt_preserved_witness :
    (setDefaultDataTimes 100 100 (⟨"", "k", 7, 0, 500⟩ : KeyValue Nat)).ExpireAt = 500 ∧
    ∃ p, (createKeyValueWithExpiration none 100 100 100 (⟨[], []⟩ : MongoCache Nat)
        ⟨"", "k", 7, 0, 500⟩).1.docs = [] ++ [p] ∧ p.ExpireAt = 500 :=
  future_expireAt_preserved ⟨[], []⟩ ⟨"", "k", 7, 0, 500⟩ 100 100 100
    (by decide) (by decide)

/-- C6 at the boundary: a record whose `ExpireAt` equals the clock reading is
returned by `getKeyWithExpireCheck` as live and stays in the store, no delete
being issued, while `deleteExpiredKeys` at the same reading removes it. -/
theorem read_at_expiry_instant_returns_record (findPick delPick : Nat) :
    (⟨"a", "k", 1, 0, 50⟩ : KeyValue Nat).ExpireAt ≤ (50 : Time) ∧
    getKeyWithExpireCheck none none findPick delPick 50
        (⟨[⟨"a", "k", 1, 0, 50⟩], []⟩ : MongoCache Nat) "k"
      = (⟨[⟨"a", "k", 1, 0, 50⟩], [Op.Find "k"]⟩, .ok ⟨"a", "k", 1, 0, 50⟩) ∧
    (deleteExpiredKeys none 50 (⟨[⟨"a", "k", 1, 0, 50⟩], []⟩ : MongoCache Nat)).1.docs = [] := by
  refine ⟨by decide, ?_, rfl⟩
  have hone : One none findPick
      (⟨[⟨"a", "k", 1, 0, 50⟩], []⟩ : MongoCache Nat).docs "k" = .ok ⟨"a", "k", 1, 0, 50⟩ :=
    One_after_insert findPick [] "k" ⟨"a", "k", 1, 0, 50⟩ (by intro x hx; cases hx) rfl
  rw [getKeyWithExpireCheck_live none none findPick delPick 50 _ "k" _ hone (by decide)]
  rfl

/-- C7. Sweep: a `deleteExpiredKeys` that returns no error at clock reading `now`
leaves exactly the records of the original store whose `ExpireAt` is strictly
after `now`, in their order and unchanged; every record with
`ExpireAt <= now` is gone. -/
theorem sweep_keeps_exactly_live (fault : Option Error) (now : Time) (m : MongoCache α)
    (hok : (deleteExpiredKeys fault now m).2 = none) :
    (deleteExpiredKeys fault now m).1.docs = m.docs.filter (fun d => decide (now < d.ExpireAt)) ∧
    (∀ d, d ∈ (deleteExpiredKeys fault now m).1.docs ↔ d ∈ m.docs ∧ now < d.ExpireAt) ∧
    (∀ d ∈ m.docs, d.ExpireAt ≤ now → d ∉ (deleteExpiredKeys fault now m).1.docs) := by
  cases fault with
  | some e => simp [deleteExpiredKeys, RemoveAll] at hok
  | none =>
    have hdocs : (deleteExpiredKeys none now m).1.docs
        = m.docs.filter (fun d => decide (now < d.ExpireAt)) := by
      simp only [deleteExpiredKeys, RemoveAll, MongoCache.issue]
      congr 1
      funext d
      by_cases h : now < d.ExpireAt
      · simp [expiredAt, h, not_le.mpr h]
      · simp [expiredAt, h, not_lt.mp h]
    refine ⟨hdocs, ?_, ?_⟩
    · intro d
      rw [hdocs]
      simp [List.mem_filter]
    · intro d _ hle hmem
      rw [hdocs] at hmem
      simp only [List.mem_filter, decide_eq_true_eq] at hmem
      exact absurd hmem.2 (not_lt.mpr hle)

/-- Witness of C7: a sweep at instant 50 over records expiring at 49, 50 and 51. -/
theorem sweep_keeps_exactly_live_witness :
    (deleteExpiredKeys none 50
        (⟨[⟨"a", "x", 1, 0, 49⟩, ⟨"b", "y", 2, 0, 50⟩, ⟨"c", "z", 3, 0, 51⟩], []⟩ :
          MongoCache Nat)).1.docs
      = ([⟨"a", "x", 1, 0, 49⟩, ⟨"b", "y", 2, 0, 50⟩, ⟨"c", "z", 3, 0, 51⟩] :
          List (KeyValue Nat)).filter (fun d => decide ((50 : Time) < d.ExpireAt)) ∧
    (∀ d, d ∈ (deleteExpiredKeys none 50
        (⟨[⟨"a", "x", 1, 0, 49⟩, ⟨"b", "y", 2, 0, 50⟩, ⟨"c", "z", 3, 0, 51⟩], []⟩ :
          MongoCache Nat)).1.docs ↔
      d ∈ ([⟨"a", "x", 1, 0, 49⟩, ⟨"b", "y", 2, 0, 50⟩, ⟨"c", "z", 3, 0, 51⟩] :
          List (KeyValue Nat)) ∧ (50 : Time) < d.ExpireAt) ∧
    (∀ d ∈ ([⟨"a", "x", 1, 0, 49⟩, ⟨"b", "y", 2, 0, 50⟩, ⟨"c", "z", 3, 0, 51⟩] :
          List (KeyValue Nat)), d.ExpireAt ≤ (50 : Time) →
      d ∉ (deleteExpiredKeys none 50
        (⟨[⟨"a", "x", 1, 0, 49⟩, ⟨"b", "y", 2, 0, 50⟩, ⟨"c", "z", 3, 0, 51⟩], []⟩ :
          MongoCache Nat)).1.docs) :=
  sweep_keeps_exactly_live none 50
    ⟨[⟨"a", "x", 1, 0, 49⟩, ⟨"b", "y", 2, 0, 50⟩, ⟨"c", "z", 3, 0, 51⟩], []⟩ rfl

/-- C9. Error precedence of `getKeyWithExpireCheck`. When the record found for
`k` is expired (`ExpireAt` before `now`) and the delete fails with error `e`,
the result is `(nil, e)`, so it is not `ErrNotFound` unless `e` itself is.
When the lookup fails with error `e` (not-found included), the result is
`(nil, e)`, the only request issued is the lookup, no delete among the
requests, and the documents are untouched. -/
theorem read_error_precedence (m : MongoCache α) (k : String) (now : Time)
    (findFault delFault : Option Error) (findPick delPick : Nat) (e : Error) :
    (∀ r, (getKey findFault findPick m k).2 = .ok r → r.ExpireAt < now →
        (deleteKey delFault delPick (getKey findFault findPick m k).1 k).2 = some e →
        (getKeyWithExpireCheck findFault delFault findPick delPick now m k).2 = .error e ∧
        (e ≠ Error.ErrNotFound →
          (getKeyWithExpireCheck findFault delFault findPick delPick now m k).2
            ≠ .error Error.ErrNotFound)) ∧
    ((getKey findFault findPick m k).2 = .error e →
        (getKeyWithExpireCheck findFault delFault findPick delPick now m k).2 = .error e ∧
        (getKeyWithExpireCheck findFault delFault findPick delPick now m k).1.calls
          = m.calls ++ [Op.Find k] ∧
        Op.Remove k ∉
          (getKeyWithExpireCheck findFault delFault findPick delPick now m k).1.calls.drop
            m.calls.length ∧
        (getKeyWithExpireCheck findFault delFault findPick delPick now m k).1.docs = m.docs) := by
  constructor
  · intro r hfound hexp hdel
    rw [getKey_eq] at hfound hdel
    simp only at hfound hdel
    rw [getKeyWithExpireCheck_expired findFault delFault findPick delPick now m k r hfound hexp,
      hdel]
    refine ⟨rfl, ?_⟩
    intro hne h
    apply hne
    simpa using h
  · intro herr
    rw [getKey_eq] at herr
    simp only at herr
    rw [getKeyWithExpireCheck_lookup_error findFault delFault findPick delPick now m k e herr]
    refine ⟨rfl, rfl, ?_, rfl⟩
    simp [MongoCache.issue]

/-- Witness of C9: an expired record whose delete fails with a backend error,
and a lookup on the empty store. -/
theorem read_error_precedence_witness :
    ((getKeyWithExpireCheck none (some (Error.backend "down")) 0 0 50
        (⟨[⟨"a", "k", 1, 0, 49⟩], []⟩ : MongoCache Nat) "k").2
      = .error (Error.backend "down")) ∧
    ((getKeyWithExpireCheck none none 0 0 50 (⟨[], []⟩ : MongoCache Nat) "k").2
      = .error Error.ErrNotFound ∧
     (getKeyWithExpireCheck none none 0 0 50 (⟨[], []⟩ : MongoCache Nat) "k").1.calls
      = [] ++ [Op.Find "k"]) :=
  ⟨((read_error_precedence (⟨[⟨"a", "k", 1, 0, 49⟩], []⟩ : MongoCache Nat) "k" 50 none
      (some (Error.backend "down")) 0 0 (Error.backend "down")).1
      ⟨"a", "k", 1, 0, 49⟩ rfl (by decide) rfl).1,
   ((read_error_precedence (⟨[], []⟩ : MongoCache Nat) "k" 50 none none 0 0
      Error.ErrNotFound).2 rfl).1,
   ((read_error_precedence (⟨[], []⟩ : MongoCache Nat) "k" 50 none none 0 0
      Error.ErrNotFound).2 rfl).2.1⟩

/-- C8, as stated, fails: a record expiring at instant 11 survives a sweep at
instant 10 and is removed by the next sweep at instant 12, both sweeps
returning no error and no insert in between. -/
theorem second_sweep_removes_newly_expired :
    (deleteExpiredKeys none 10 (⟨[⟨"a", "x", 1, 0, 11⟩], []⟩ : MongoCache Nat)).2 = none ∧
    (deleteExpiredKeys none 10 (⟨[⟨"a", "x", 1, 0, 11⟩], []⟩ : MongoCache Nat)).1.docs
      = [⟨"a", "x", 1, 0, 11⟩] ∧
    (deleteExpiredKeys none 12
      (deleteExpiredKeys none 10 (⟨[⟨"a", "x", 1, 0, 11⟩], []⟩ : MongoCache Nat)).1).2 = none ∧
    (deleteExpiredKeys none 12
      (deleteExpiredKeys none 10 (⟨[⟨"a", "x", 1, 0, 11⟩], []⟩ : MongoCache Nat)).1).1.docs
      ≠ (deleteExpiredKeys none 10 (⟨[⟨"a", "x", 1, 0, 11⟩], []⟩ : MongoCache Nat)).1.docs := by
  refine ⟨rfl, rfl, rfl, ?_⟩
  intro h
  have h2 : (deleteExpiredKeys none 12
      (deleteExpiredKeys none 10 (⟨[⟨"a", "x", 1, 0, 11⟩], []⟩ : MongoCache Nat)).1).1.docs
      = [] := rfl
  rw [h2] at h
  have h3 : (deleteExpiredKeys none 10
      (⟨[⟨"a", "x", 1, 0, 11⟩], []⟩ : MongoCache Nat)).1.docs = [⟨"a", "x", 1, 0, 11⟩] := rfl
  rw [h3] at h
  cases h

/-- C8, amended. Two successful `deleteExpiredKeys` calls in a row, at clock
readings `now1` then `now2`, with no insert in between: the second call leaves
the documents exactly as the first left them if and only if no record that
survived the first call (`ExpireAt` after `now1`) has `ExpireAt <= now2`; in
particular when the second reading is not later than the first. -/
theorem sweep_twice (fault1 fault2 : Option Error) (now1 now2 : Time) (m : MongoCache α)
    (hok1 : (deleteExpiredKeys fault1 now1 m).2 = none)
    (hok2 : (deleteExpiredKeys fault2 now2 (deleteExpiredKeys fault1 now1 m).1).2 = none) :
    ((deleteExpiredKeys fault2 now2 (deleteExpiredKeys fault1 now1 m).1).1.docs
        = (deleteExpiredKeys fault1 now1 m).1.docs ↔
      ∀ d ∈ m.docs, now1 < d.ExpireAt → now2 < d.ExpireAt) ∧
    (now2 ≤ now1 →
      (deleteExpiredKeys fault2 now2 (deleteExpiredKeys fault1 now1 m).1).1.docs
        = (deleteExpiredKeys fault1 now1 m).1.docs) := by
  have hiff : (deleteExpiredKeys fault2 now2 (deleteExpiredKeys fault1 now1 m).1).1.docs
        = (deleteExpiredKeys fault1 now1 m).1.docs ↔
      ∀ d ∈ m.docs, now1 < d.ExpireAt → now2 < d.ExpireAt := by
    cases fault1 with
    | some e => simp [deleteExpiredKeys, RemoveAll] at hok1
    | none =>
      cases fault2 with
      | some e => simp [deleteExpiredKeys, RemoveAll] at hok2
      | none =>
        simp only [deleteExpiredKeys, RemoveAll, MongoCache.issue]
        rw [List.filter_eq_self]
        simp only [List.mem_filter, expiredAt, Bool.not_eq_true', decide_eq_false_iff_not,
          not_le, and_imp]
  refine ⟨hiff, ?_⟩
  intro hle
  rw [hiff]
  intro d _ h
  exact lt_of_le_of_lt hle h

/-- Witness of C8, amended: two sweeps at the same instant 50. -/
theorem sweep_twice_witness :
    ((deleteExpiredKeys none 50 (deleteExpiredKeys none 50
        (⟨[⟨"a", "x", 1, 0, 49⟩, ⟨"b", "y", 2, 0, 51⟩], []⟩ : MongoCache Nat)).1).1.docs
        = (deleteExpiredKeys none 50
        (⟨[⟨"a", "x", 1, 0, 49⟩, ⟨"b", "y", 2, 0, 51⟩], []⟩ : MongoCache Nat)).1.docs ↔
      ∀ d ∈ ([⟨"a", "x", 1, 0, 49⟩, ⟨"b", "y", 2, 0, 51⟩] : List (KeyValue Nat)),
        (50 : Time) < d.ExpireAt → (50 : Time) < d.ExpireAt) ∧
    ((50 : Time) ≤ 50 →
      (deleteExpiredKeys none 50 (deleteExpiredKeys none 50
        (⟨[⟨"a", "x", 1, 0, 49⟩, ⟨"b", "y", 2, 0, 51⟩], []⟩ : MongoCache Nat)).1).1.docs
        = (deleteExpiredKeys none 50
        (⟨[⟨"a", "x", 1, 0, 49⟩, ⟨"b", "y", 2, 0, 51⟩], []⟩ : MongoCache Nat)).1.docs) :=
  sweep_twice none none 50 50 ⟨[⟨"a", "x", 1, 0, 49⟩, ⟨"b", "y", 2, 0, 51⟩], []⟩ rfl rfl

/-- C10 at a record supplied with an old `CreatedAt` = 1 and zero `ExpireAt`,
the clock reading being 1000000000000 at both readings: `setDefaultDataTimes`
returns `ExpireAt` = 1 + 60 s, which is before the clock reading. -/
theorem setDefaultDataTimes_stale_createdAt_gives_past_expiry :
    (setDefaultDataTimes 1000000000000 1000000000000
        (⟨"", "k", 7, 1, 0⟩ : KeyValue Nat)).ExpireAt = 60000000001 ∧
    Time.Before (setDefaultDataTimes 1000000000000 1000000000000
        (⟨"", "k", 7, 1, 0⟩ : KeyValue Nat)).ExpireAt 1000000000000 = true := by
  refine ⟨rfl, rfl⟩

end Cache
